import Mathlib

/-!
Verification of the rate-limited request-orchestration core of the
CodeReviewAI service (GitHub fetcher, utils, OpenAI reviewer).

The Python sources are shallowly embedded as executable Lean definitions:

* `app/github_fetcher.py` — the sliding-window rate limiter inside
  `make_github_request`, URL parsing in `get_repo_info`, the concurrent
  file-fetch stage `fetch_list_text_files`, and `fetch_repo`.
* `app/utils.py` — `is_text_file` and `merge_file_contents`.
* `app/openAI_reviewer.py` — `get_code_review` and its three
  context-chained generation calls.

Timestamps are modelled as rationals.  Cooperative-concurrency effects are
made explicit: the nondeterministic completion order of the concurrent
per-file fetch tasks is a parameter, and the rate limiter's critical
section — which in the source holds `rate_limit_lock` for its whole
duration, sleep included — is one atomic step.
-/

namespace CodeReviewAI

/-! ## Rate limiter of `make_github_request` (`app/github_fetcher.py`)

The Python code keeps a deque `REQUEST_TIMES` of admission timestamps.
Under `rate_limit_lock` it (1) pops timestamps `<= current_time - 60` from
the front, (2) if `len(REQUEST_TIMES) >= PER_MINUTE_LIMIT` sleeps for
`60 - (current_time - REQUEST_TIMES[0])`, refreshes `current_time` and pops
stale timestamps again, and (3) appends `current_time`.  Because the lock is
held across the sleep, the whole section is atomic with respect to other
acquirers, so a run of the limiter is a sequence of such atomic steps. -/

/-- `PER_HOUR_LIMIT = 5000 if ACCESS_TOKEN else 60`. -/
def PER_HOUR_LIMIT (hasAccessToken : Bool) : ℕ :=
  if hasAccessToken then 5000 else 60

/-- `PER_MINUTE_LIMIT = PER_HOUR_LIMIT // 60`. -/
def PER_MINUTE_LIMIT (hasAccessToken : Bool) : ℕ :=
  PER_HOUR_LIMIT hasAccessToken / 60

/-- The eviction loop
`while REQUEST_TIMES and REQUEST_TIMES[0] <= current_time - 60: popleft()`:
drop timestamps from the front while they are at least 60 seconds old. -/
def evict (now : ℚ) (ts : List ℚ) : List ℚ :=
  ts.dropWhile (fun s => decide (s ≤ now - 60))

/-- Result of one pass through the rate-limiting critical section. -/
structure AcquireResult where
  /-- the deque `REQUEST_TIMES` after the section -/
  times : List ℚ
  /-- the timestamp appended to the deque (the admission time) -/
  admitted : ℚ
  /-- the duration passed to `asyncio.sleep` (0 when no sleep happened) -/
  slept : ℚ
deriving DecidableEq, Repr

/-- One atomic execution of the rate-limiting section of
`make_github_request`, entered at clock value `now` with deque `ts`.
`eps ≥ 0` is the oversleep: `asyncio.sleep(d)` wakes after at least `d`
seconds, so the refreshed `current_time` is `now + sleep_time + eps`. -/
def acquireStep (limit : ℕ) (ts : List ℚ) (now : ℚ) (eps : ℚ) : AcquireResult :=
  let ts1 := evict now ts
  if limit ≤ ts1.length then
    let sleep_time := 60 - (now - ts1.headI)
    let wake := now + sleep_time + eps
    ⟨evict wake ts1 ++ [wake], wake, sleep_time⟩
  else
    ⟨ts1 ++ [now], now, 0⟩

/-- A sequence of acquisitions through the limiter.  Each call is a pair
`(δ, ε)`: the caller enters the critical section `δ ≥ 0` seconds after the
previous admission (the lock serializes callers and the clock is monotone;
`δ = 0` models a caller that was already queued on the lock), and its sleep,
if any, oversleeps by `ε ≥ 0`. -/
def runAcquires (limit : ℕ) : List ℚ → ℚ → List (ℚ × ℚ) → List AcquireResult
  | _, _, [] => []
  | ts, last, c :: rest =>
    let r := acquireStep limit ts (last + c.1) c.2
    r :: runAcquires limit r.times r.admitted rest

/-- The admission timestamps recorded by a sequence of acquisitions that
starts from the empty deque at clock value `t0`. -/
def admissions (limit : ℕ) (t0 : ℚ) (calls : List (ℚ × ℚ)) : List ℚ :=
  (runAcquires limit [] t0 calls).map (·.admitted)

/-- Number of timestamps of `l` lying in the trailing 60-second window
`(t - 60, t]`. -/
def windowCount (t : ℚ) (l : List ℚ) : ℕ :=
  l.countP (fun s => decide (t - 60 < s) && decide (s ≤ t))

/-- Five acquisitions racing for the lock: each enters the critical section
the moment the previous caller leaves it, with exact sleeps. -/
def fiveBurstCalls : List (ℚ × ℚ) := List.replicate 5 (0, 0)

/-! ## Lock discipline of the two limiters

`make_github_request` wraps its whole rate-limiting section — eviction,
capacity check, sleep, eviction again, append — in
`async with rate_limit_lock:`; `rate_limited_openai_chat_completion`
performs the same sequence of steps with no lock at all.  For the temporal
claim about lock holding we embed the control-flow skeleton of each
section as a list of atomic actions. -/

/-- Atomic actions of a limiter section, as they appear in the source. -/
inductive LimiterAction
  /-- entering `async with rate_limit_lock:` -/
  | lockAcquire
  /-- leaving the `async with rate_limit_lock:` block -/
  | lockRelease
  /-- `while REQUEST_TIMES and REQUEST_TIMES[0] <= current_time - 60: popleft()` -/
  | evictLoop
  /-- `if len(REQUEST_TIMES) >= <limit>:` -/
  | capacityCheck
  /-- `await asyncio.sleep(sleep_time)` -/
  | sleepWait
  /-- `REQUEST_TIMES.append(current_time)` -/
  | appendTime
deriving DecidableEq

/-- Control flow of the rate-limiting section of `make_github_request`
(`app/github_fetcher.py`), on the path where the window is at capacity:
the entire section, the sleep included, sits inside
`async with rate_limit_lock:`. -/
def make_github_request_limiter : List LimiterAction :=
  [.lockAcquire, .evictLoop, .capacityCheck, .sleepWait, .evictLoop,
    .appendTime, .lockRelease]

/-- Control flow of the rate-limiting section of
`rate_limited_openai_chat_completion` (`app/openAI_reviewer.py`), on the
path where the window is at capacity: the same steps, but no lock is ever
taken. -/
def rate_limited_openai_limiter : List LimiterAction :=
  [.evictLoop, .capacityCheck, .sleepWait, .evictLoop, .appendTime]

/-- The sublist of actions performed while at least one lock is held,
given the current lock depth. -/
def lockedActions : List LimiterAction → ℕ → List LimiterAction
  | [], _ => []
  | .lockAcquire :: rest, d => lockedActions rest (d + 1)
  | .lockRelease :: rest, d => lockedActions rest (d - 1)
  | act :: rest, d =>
    if 0 < d then act :: lockedActions rest d else lockedActions rest d

/-- The sublist of actions performed while no lock is held. -/
def unlockedActions : List LimiterAction → ℕ → List LimiterAction
  | [], _ => []
  | .lockAcquire :: rest, d => unlockedActions rest (d + 1)
  | .lockRelease :: rest, d => unlockedActions rest (d - 1)
  | act :: rest, d =>
    if d = 0 then act :: unlockedActions rest d else unlockedActions rest d

/-- The section suspends in the wait-for-slot sleep while holding the
mutual-exclusion lock. -/
def sleepsWhileHoldingLock (tr : List LimiterAction) : Bool :=
  (lockedActions tr 0).contains .sleepWait

/-- The section mutates the timestamp sequence (eviction or append)
outside any mutual-exclusion lock. -/
def mutatesOutsideLock (tr : List LimiterAction) : Bool :=
  (unlockedActions tr 0).contains .evictLoop ||
    (unlockedActions tr 0).contains .appendTime

/-! ## `app/utils.py` -/

/-- `s` ends with `suffix`, character-wise. -/
def strHasSuffix (s suffix : String) : Bool :=
  suffix.data.isSuffixOf s.data

/-- `s` starts with `pre`, character-wise (Python `str.startswith`). -/
def strStartsWith (s pre : String) : Bool :=
  pre.data.isPrefixOf s.data

/-- Extension table of the MIME classifier (the text types relevant to the
repository plus common binary types). -/
def mimeTable : List (String × String) :=
  [(".py", "text/x-python"), (".txt", "text/plain"), (".md", "text/markdown"),
   (".html", "text/html"), (".csv", "text/csv"), (".rst", "text/x-rst"),
   (".c", "text/x-csrc"), (".png", "image/png"), (".jpg", "image/jpeg"),
   (".gif", "image/gif"), (".json", "application/json"),
   (".pdf", "application/pdf"), (".zip", "application/zip"),
   (".bin", "application/octet-stream")]

/-- Modelled from the spec: the MIME-type/extension classifier consumed by
the core (`mimetypes.guess_type` in the source — an external collaborator,
`§6`): it maps a file path to an optional MIME type by file-name
extension, and a path with no recognized extension (such as `LICENSE`,
`Dockerfile` or `Makefile`) yields no MIME type. -/
def guess_type (file_path : String) : Option String :=
  (mimeTable.find? fun e => strHasSuffix file_path e.1).map (·.2)

/-- `is_text_file` from `app/utils.py`:
`mime_type, _ = mimetypes.guess_type(file_path)` followed by
`return mime_type and mime_type.startswith('text')`.  Python's `and`
short-circuits on falsy values, so the function returns `None` — not
`False` — when no MIME type is guessed; the Python result
`None | False | True` is modelled as `Option Bool`. -/
def is_text_file (file_path : String) : Option Bool :=
  match guess_type file_path with
  | none => none
  | some mime_type => some (strStartsWith mime_type "text")

/-- Python truthiness of an `Option Bool` value (`None` is falsy). -/
def pyTruthy : Option Bool → Bool
  | none => false
  | some b => b

/-- One merged entry of `merge_file_contents`:
`f"\n--- {file_path} ---\n"`, then the content, then `"\n"`. -/
def entryString (p : String × String) : String :=
  "\n--- " ++ p.1 ++ " ---\n" ++ p.2 ++ "\n"

/-- `merge_file_contents` from `app/utils.py`: starting from the empty
string, append each file's delimiter line and content, iterating over the
mapping in its (insertion) order. -/
def merge_file_contents (files : List (String × String)) : String :=
  files.foldl (fun merged_content p => merged_content ++ entryString p) ""

/-! ## URL parsing in `get_repo_info` (`app/github_fetcher.py`)

Python string primitives are embedded on character lists, with a fuel
argument making them structurally recursive; fuel equal to the list
length always suffices, since every step consumes at least one
character. -/

/-- Python `str.replace` for a nonempty pattern `p :: ps`: every
non-overlapping occurrence, scanning left to right, is replaced by
`rep`. -/
def replaceAux (p : Char) (ps rep : List Char) : ℕ → List Char → List Char
  | _, [] => []
  | 0, l => l
  | fuel + 1, c :: rest =>
    if (p :: ps).isPrefixOf (c :: rest) then
      rep ++ replaceAux p ps rep fuel (rest.drop ps.length)
    else
      c :: replaceAux p ps rep fuel rest

/-- Python `s.replace(pat, rep)` (the source only uses a nonempty
pattern). -/
def pyReplace (s pat rep : String) : String :=
  match pat.data with
  | [] => s
  | p :: ps => ⟨replaceAux p ps rep.data s.data.length s.data⟩

/-- Python `str.split` for a nonempty separator `p :: ps`; empty chunks
are kept, as in Python. -/
def splitAux (p : Char) (ps : List Char) : ℕ → List Char → List (List Char)
  | _, [] => [[]]
  | 0, l => [l]
  | fuel + 1, c :: rest =>
    if (p :: ps).isPrefixOf (c :: rest) then
      [] :: splitAux p ps fuel (rest.drop ps.length)
    else
      match splitAux p ps fuel rest with
      | [] => [[c]]
      | l :: ls => (c :: l) :: ls

/-- Python `s.split(sep)` (the source only uses the nonempty separator
`'/'`). -/
def pySplit (s sep : String) : List String :=
  match sep.data with
  | [] => [s]
  | p :: ps => (splitAux p ps s.data.length s.data).map fun l => ⟨l⟩

/-- Python `s.rstrip('/')`. -/
def rstripSlash (s : String) : String :=
  ⟨(s.data.reverse.dropWhile fun c => c == '/').reverse⟩

/-- The literal prefix removed by `get_repo_info`. -/
def githubPrefix : String := "https://github.com/"

/-- The URL-parsing step of `get_repo_info` (`app/github_fetcher.py`):
`location = repo_url.replace("https://github.com/", "")` and
`owner, repo_name = location.rstrip('/').split('/')[-2:]`.  The unpacking
raises `ValueError` — caught and re-raised as the invalid-URL
`ValueError` — exactly when the split yields fewer than two parts;
otherwise the last two parts (which may be empty strings) are taken. -/
def get_repo_info_parse (repo_url : String) : Option (String × String) :=
  let location := pyReplace repo_url githubPrefix ""
  let parts := pySplit (rstripSlash location) "/"
  if 2 ≤ parts.length then
    some (parts.getD (parts.length - 2) "", parts.getD (parts.length - 1) "")
  else none

/-- Following the spec's words: the non-empty path segments of the URL
after the host (the spec's invalid-reference criterion counts only
non-empty segments). -/
def nonEmptyPathSegmentsAfterHost (repo_url : String) : List String :=
  (pySplit (pyReplace repo_url githubPrefix "") "/").filter fun seg => seg ≠ ""

/-! ## Repository fetching (`app/github_fetcher.py`) -/

/-- One entry of the GitHub tree response (`repo_tree['tree']`). -/
structure TreeEntry where
  path : String
  type : String
deriving DecidableEq

/-- Repository metadata read from the repo-info response:
`repo_info['owner']['login']`, `repo_info['name']`,
`repo_info['default_branch']`. -/
structure RepoInfo where
  owner_login : String
  name : String
  default_branch : String
deriving DecidableEq

/-- A fixed mocked upstream: the outcome of the metadata request, of the
tree request, and of each per-file content request (`none` when the fetch
fails or the base64/UTF-8 decode raises; `some c` when it succeeds with
decoded text `c`). -/
structure Upstream where
  repo_info : Except String RepoInfo
  repo_tree : Except String (List TreeEntry)
  file_content : String → Option String

/-- The `Repository` dataclass from `app/github_fetcher.py`. -/
structure Repository where
  owner : String
  repo_name : String
  file_paths : List String
  merged_code : String
deriving DecidableEq

/-- Distinguishable failures of `fetch_repo`. -/
inductive FetchError
  /-- the `ValueError` raised by `get_repo_info` on a malformed URL -/
  | invalidUrl
  /-- the generic `Exception` raised by `make_github_request` on a
  non-200 response, propagated by the metadata or tree stage -/
  | upstream (msg : String)
deriving DecidableEq

/-- `fetch_list_text_files` (`app/github_fetcher.py`): one concurrent
`fetch_and_store` task per candidate path; a task that succeeds inserts
`(path, decoded content)` into the shared dict at the moment it completes,
and a task whose fetch or decode raises inserts nothing (its exception is
caught and logged inside `fetch_and_store`).  Python dicts preserve
insertion order, so the resulting association list is ordered by task
completion; `completed` is the candidate list in completion order. -/
def fetch_list_text_files (file_content : String → Option String)
    (completed : List String) : List (String × String) :=
  completed.filterMap fun p => (file_content p).map fun c => (p, c)

/-- The blob paths of the tree, in API order:
`[item['path'] for item in repo_tree['tree'] if item['type'] == 'blob']`. -/
def blobPaths (tree : List TreeEntry) : List String :=
  (tree.filter fun item => item.type == "blob").map (·.path)

/-- The text-classified candidate paths submitted to the content-fetch
stage: `[item for item in file_paths if utils.is_text_file(item)]`. -/
def textfilePaths (tree : List TreeEntry) : List String :=
  (blobPaths tree).filter fun p => pyTruthy (is_text_file p)

/-- `fetch_repo` (`app/github_fetcher.py`) against a fixed mocked
upstream.  `complete` is the completion schedule of the concurrent
per-file tasks: it reorders the submitted candidate list into the order in
which the tasks finish (any permutation can occur, depending on response
timing; the identity schedule means tasks finish in submission order). -/
def fetch_repo (repo_url : String) (u : Upstream)
    (complete : List String → List String) : Except FetchError Repository :=
  match get_repo_info_parse repo_url with
  | none => .error .invalidUrl
  | some _ =>
    match u.repo_info with
    | .error e => .error (.upstream e)
    | .ok info =>
      match u.repo_tree with
      | .error e => .error (.upstream e)
      | .ok tree =>
        let files_content :=
          fetch_list_text_files u.file_content (complete (textfilePaths tree))
        let merged_code := merge_file_contents files_content
        .ok ⟨info.owner_login, info.name, blobPaths tree, merged_code⟩

/-! ## Review generation (`app/openAI_reviewer.py`) -/

/-- One role-tagged message sent to the generation API. -/
structure Msg where
  role : String
  content : String
deriving DecidableEq

/-- The `Review` dataclass from `app/openAI_reviewer.py`. -/
structure Review where
  downsides_comments : String
  rating : String
  conclusion : String
deriving DecidableEq

/-- The shared persona-and-assignment framing of all three system
prompts. -/
def reviewFraming (assignment reviewed_level : String) : String :=
  "You are an expert in computer programming, performing a code review of the provided code repository. "
    ++ "The repository was written by a " ++ reviewed_level
    ++ " programmer and should be held to corresponding standards. "
    ++ "Their assignment was: " ++ assignment ++ " "

/-- Messages of the first generation call (downsides and comments). -/
def reviewMessages1 (code assignment reviewed_level : String) : List Msg :=
  [⟨"system", reviewFraming assignment reviewed_level
      ++ "Your current task is to find downsides and write comments on the provided repository."⟩,
   ⟨"user", code⟩]

/-- Messages of the second generation call (rating), whose context carries
the first call's result verbatim as an assistant message. -/
def reviewMessages2 (code assignment reviewed_level downsides_comments : String) : List Msg :=
  [⟨"system", reviewFraming assignment reviewed_level
      ++ "Your current task is to rate the provided repository on a scale from 0 to 100. "
      ++ "You should be brief in your reasoning."⟩,
   ⟨"user", code⟩,
   ⟨"assistant", downsides_comments⟩]

/-- Messages of the third generation call (conclusion), whose context
carries both prior results verbatim as assistant messages. -/
def reviewMessages3 (code assignment reviewed_level downsides_comments rating : String) : List Msg :=
  [⟨"system", reviewFraming assignment reviewed_level
      ++ "Your current task is to draw conclusions on the provided code repository and suggest ways to improve it. "
      ++ "Do not propose to the user to continue the conversation; this message is final."⟩,
   ⟨"user", code⟩,
   ⟨"assistant", downsides_comments⟩,
   ⟨"assistant", rating⟩]

/-- `get_code_review` (`app/openAI_reviewer.py`) against a generation
oracle `gen` (each `rate_limited_openai_chat_completion` call, i.e. the
extracted `completion.choices[0].message.content` on success or the
propagated exception on failure).  The second component is the trace of
message lists actually issued, in order: a failed call aborts the
function (the exception is logged and re-raised), so later calls are
never issued. -/
def get_code_review (gen : List Msg → Except String String)
    (code assignment reviewed_level : String) :
    Except String Review × List (List Msg) :=
  let m1 := reviewMessages1 code assignment reviewed_level
  match gen m1 with
  | .error e => (.error e, [m1])
  | .ok downsides_comments =>
    let m2 := reviewMessages2 code assignment reviewed_level downsides_comments
    match gen m2 with
    | .error e => (.error e, [m1, m2])
    | .ok rating =>
      let m3 := reviewMessages3 code assignment reviewed_level downsides_comments rating
      match gen m3 with
      | .error e => (.error e, [m1, m2, m3])
      | .ok conclusion => (.ok ⟨downsides_comments, rating, conclusion⟩, [m1, m2, m3])

/-! ### Concrete fixtures used in witnesses and counterexamples -/

/-- A small mocked tree: three text-classified blobs would be too few to
exercise the binary and extensionless cases, so it has two text files, one
binary file, one directory entry and one extensionless file. -/
def sampleTree : List TreeEntry :=
  [⟨"file1.txt", "blob"⟩, ⟨"file2.bin", "blob"⟩, ⟨"dir", "tree"⟩,
   ⟨"dir/file3.txt", "blob"⟩, ⟨"LICENSE", "blob"⟩]

/-- Mocked repository metadata. -/
def sampleInfo : RepoInfo := ⟨"owner", "repo", "main"⟩

/-- Mocked per-file responses: both text files succeed. -/
def sampleContent : String → Option String
  | "file1.txt" => some "content of file1"
  | "dir/file3.txt" => some "content of file3"
  | _ => none

/-- Mocked upstream with all stages succeeding. -/
def sampleUpstream : Upstream := ⟨.ok sampleInfo, .ok sampleTree, sampleContent⟩

/-- Mocked per-file responses where the fetch of `dir/file3.txt` raises. -/
def failingContent : String → Option String
  | "file1.txt" => some "content of file1"
  | _ => none

/-- Mocked upstream where one candidate file's content fetch fails. -/
def failingUpstream : Upstream := ⟨.ok sampleInfo, .ok sampleTree, failingContent⟩

/-- The canonical well-formed repository URL. -/
def sampleUrl : String := "https://github.com/owner/repo"

/-- A generation oracle that always succeeds with the fixed text `s`. -/
def constGen (s : String) : List Msg → Except String String :=
  fun _ => .ok s

/-- A generation oracle that always fails with message `e`. -/
def failGen (e : String) : List Msg → Except String String :=
  fun _ => .error e

/-- The merged code of a successful fetch (`none` on failure). -/
def mergedCodeOf : Except FetchError Repository → Option String
  | .ok r => some r.merged_code
  | .error _ => none

/-- The file-path listing of a successful fetch (`none` on failure). -/
def filePathsOf : Except FetchError Repository → Option (List String)
  | .ok r => some r.file_paths
  | .error _ => none

/-- Whether a fetch outcome is the invalid-reference `ValueError`. -/
def isInvalidUrl : Except FetchError Repository → Bool
  | .error .invalidUrl => true
  | _ => false

/-! ### Sliding-window invariant of the limiter -/

lemma evict_eq_filter (now : ℚ) (ts : List ℚ) (hsort : ts.Sorted (· ≤ ·)) :
    evict now ts = ts.filter (fun s => decide (now - 60 < s)) := by
  induction ts with
  | nil => rfl
  | cons a l ih =>
    rw [List.sorted_cons] at hsort
    by_cases pa : a ≤ now - 60
    · have hfa : decide (now - 60 < a) = false := by
        simp only [decide_eq_false_iff_not, not_lt]; exact pa
      simp only [evict, List.dropWhile_cons] at ih ⊢
      rw [if_pos (by simpa using pa), List.filter_cons, hfa]
      simp only [Bool.false_eq_true, if_false]
      exact ih hsort.2
    · have ha : decide (now - 60 < a) = true := by
        simp only [decide_eq_true_eq]; linarith [not_le.mp pa]
      simp only [evict, List.dropWhile_cons]
      rw [if_neg (by simpa using pa), List.filter_cons, ha, if_pos rfl]
      congr 1
      exact (List.filter_eq_self.mpr fun b hb => by
        simp only [decide_eq_true_eq]
        linarith [hsort.1 b hb, not_le.mp pa]).symm

lemma headI_mem_of_ne_nil {l : List ℚ} (h : l ≠ []) : l.headI ∈ l := by
  cases l with
  | nil => exact absurd rfl h
  | cons a t => exact List.mem_cons_self a t

/-- What one atomic pass through the rate-limiting section does, given a
sorted deque that respects the clock: the new deque consists of exactly the
old timestamps still inside the admission's trailing window, followed by the
admission itself; the clock does not run backwards; and fewer than `limit`
old timestamps lie inside the admission's trailing window. -/
lemma acquireStep_spec (limit : ℕ) (ts : List ℚ) (now eps : ℚ)
    (hl : 1 ≤ limit) (heps : 0 ≤ eps)
    (hsort : ts.Sorted (· ≤ ·)) (hlen : ts.length ≤ limit) :
    (acquireStep limit ts now eps).times =
        ts.filter (fun s => decide ((acquireStep limit ts now eps).admitted - 60 < s))
          ++ [(acquireStep limit ts now eps).admitted]
      ∧ now ≤ (acquireStep limit ts now eps).admitted
      ∧ ts.countP (fun s => decide ((acquireStep limit ts now eps).admitted - 60 < s)) < limit := by
  have hts1 : evict now ts = ts.filter (fun s => decide (now - 60 < s)) :=
    evict_eq_filter now ts hsort
  by_cases hfull : limit ≤ (evict now ts).length
  · -- the sleep path
    have hne : evict now ts ≠ [] := by
      intro hnil
      rw [hnil] at hfull
      simp only [List.length_nil] at hfull
      omega
    obtain ⟨a, tl, hev⟩ : ∃ a tl, evict now ts = a :: tl := by
      cases h' : evict now ts with
      | nil => exact absurd h' hne
      | cons x l => exact ⟨x, l, rfl⟩
    have hhead : (evict now ts).headI = a := by rw [hev]; rfl
    have hanow : now - 60 < a := by
      have hmem : a ∈ evict now ts := by rw [hev]; exact List.mem_cons_self _ _
      rw [hts1] at hmem
      simpa using List.of_mem_filter hmem
    have hstep : acquireStep limit ts now eps =
        ⟨evict (now + (60 - (now - a)) + eps) (evict now ts) ++ [now + (60 - (now - a)) + eps],
          now + (60 - (now - a)) + eps, 60 - (now - a)⟩ := by
      simp only [acquireStep, hhead]
      rw [if_pos hfull]
    set wake := now + (60 - (now - a)) + eps with hwake
    have hwake60 : wake - 60 = a + eps := by rw [hwake]; ring
    have hsort1 : (evict now ts).Sorted (· ≤ ·) := by
      rw [hts1]; exact hsort.filter _
    have hcollapse :
        (evict now ts).filter (fun s => decide (wake - 60 < s)) =
          ts.filter (fun s => decide (wake - 60 < s)) := by
      rw [hts1, List.filter_filter]
      refine List.filter_congr fun s _ => ?_
      by_cases hws : wake - 60 < s
      · have h2 : now - 60 < s := by rw [hwake60] at hws; linarith
        simp [hws, h2]
      · simp [hws]
    rw [hstep]
    dsimp only
    refine ⟨?_, by linarith, ?_⟩
    · rw [evict_eq_filter _ _ hsort1, hcollapse]
    · rw [List.countP_eq_length_filter, ← hcollapse, hev, List.filter_cons]
      have hfa : decide (wake - 60 < a) = false := by
        simp only [decide_eq_false_iff_not, not_lt, hwake60]
        linarith
      rw [hfa]
      simp only [Bool.false_eq_true, if_false]
      have h1 : (tl.filter fun s => decide (wake - 60 < s)).length ≤ tl.length :=
        List.length_filter_le _ _
      have h2 : tl.length + 1 ≤ ts.length := by
        have h3 := List.length_filter_le (fun s => decide (now - 60 < s)) ts
        rw [← hts1, hev] at h3
        simpa using h3
      omega
  · -- the fast path: the window has capacity
    have hstep : acquireStep limit ts now eps = ⟨evict now ts ++ [now], now, 0⟩ := by
      simp only [acquireStep]
      rw [if_neg hfull]
    rw [hstep]
    dsimp only
    refine ⟨by rw [hts1], le_refl _, ?_⟩
    rw [List.countP_eq_length_filter, ← hts1]
    omega

lemma sorted_append_singleton {l : List ℚ} {a : ℚ}
    (hsort : l.Sorted (· ≤ ·)) (h : ∀ x ∈ l, x ≤ a) : (l ++ [a]).Sorted (· ≤ ·) := by
  induction l with
  | nil => simp
  | cons b t ih =>
    rw [List.sorted_cons] at hsort
    rw [List.cons_append, List.sorted_cons]
    refine ⟨fun y hy => ?_, ih hsort.2 fun x hx => h x (List.mem_cons_of_mem _ hx)⟩
    rcases List.mem_append.mp hy with hy | hy
    · exact hsort.1 y hy
    · rw [List.mem_singleton.mp hy]
      exact h b (List.mem_cons_self _ _)

lemma countP_filter_window (ts : List ℚ) (b u : ℚ) (h : b ≤ u) :
    (ts.filter (fun s => decide (b - 60 < s))).countP (fun s => decide (u - 60 < s)) =
      ts.countP (fun s => decide (u - 60 < s)) := by
  rw [List.countP_filter]
  apply le_antisymm
  · exact List.countP_mono_left fun s _ hs => by
      simp only [Bool.and_eq_true, decide_eq_true_eq] at hs
      simpa using hs.1
  · exact List.countP_mono_left fun s _ hs => by
      simp only [decide_eq_true_eq] at hs
      simp only [Bool.and_eq_true, decide_eq_true_eq]
      exact ⟨hs, by linarith⟩

/-- The run-level invariant behind C1.  `hist` is the full admission history
so far; the deque `ts` is sorted, bounded by the clock `last`, no longer
than the budget, the history already satisfies the window bound, and every
history timestamp inside a window ending at or after `last` is still in the
deque.  Then every trailing 60-second window of the extended history stays
within the budget. -/
lemma runAcquires_window (limit : ℕ) (hl : 1 ≤ limit) :
    ∀ (calls : List (ℚ × ℚ)) (ts hist : List ℚ) (last : ℚ),
      (∀ c ∈ calls, 0 ≤ c.1 ∧ 0 ≤ c.2) →
      ts.Sorted (· ≤ ·) →
      (∀ s ∈ ts, s ≤ last) →
      ts.length ≤ limit →
      (∀ t, windowCount t hist ≤ limit) →
      (∀ u, last ≤ u →
        hist.countP (fun s => decide (u - 60 < s)) ≤ ts.countP (fun s => decide (u - 60 < s))) →
      ∀ t, windowCount t (hist ++ (runAcquires limit ts last calls).map (·.admitted)) ≤ limit := by
  intro calls
  induction calls with
  | nil =>
    intro ts hist last _ _ _ _ hW _ t
    simpa [runAcquires] using hW t
  | cons c rest ih =>
    intro ts hist last hcalls hsort hle hlen hW hdrop t
    have hc : 0 ≤ c.1 ∧ 0 ≤ c.2 := hcalls c (List.mem_cons_self _ _)
    have hcrest : ∀ c' ∈ rest, 0 ≤ c'.1 ∧ 0 ≤ c'.2 :=
      fun c' h => hcalls c' (List.mem_cons_of_mem _ h)
    obtain ⟨htimes, hnowle, hcount⟩ :=
      acquireStep_spec limit ts (last + c.1) c.2 hl hc.2 hsort hlen
    set r := acquireStep limit ts (last + c.1) c.2 with hr
    set a := r.admitted with ha
    have hrun : runAcquires limit ts last (c :: rest) =
        r :: runAcquires limit r.times a rest := rfl
    have hlast_now : last ≤ last + c.1 := by linarith [hc.1]
    have hlast_a : last ≤ a := le_trans hlast_now hnowle
    have hle' : ∀ s ∈ ts, s ≤ a :=
      fun s hs => le_trans (le_trans (hle s hs) hlast_now) hnowle
    have hsort' : r.times.Sorted (· ≤ ·) := by
      rw [htimes]
      exact sorted_append_singleton (hsort.filter _)
        (fun x hx => hle' x (List.mem_of_mem_filter hx))
    have hle'' : ∀ s ∈ r.times, s ≤ a := by
      rw [htimes]
      intro s hs
      rcases List.mem_append.mp hs with hs | hs
      · exact hle' s (List.mem_of_mem_filter hs)
      · rw [List.mem_singleton.mp hs]
    have hlen' : r.times.length ≤ limit := by
      rw [htimes, List.length_append, List.length_singleton,
        ← List.countP_eq_length_filter]
      omega
    have hW' : ∀ t', windowCount t' (hist ++ [a]) ≤ limit := by
      intro t'
      rw [windowCount, List.countP_append]
      by_cases hwa : t' - 60 < a ∧ a ≤ t'
      · have h1 : hist.countP (fun s => decide (t' - 60 < s) && decide (s ≤ t'))
            ≤ hist.countP (fun s => decide (a - 60 < s)) := by
          refine List.countP_mono_left fun s _ hs => ?_
          simp only [Bool.and_eq_true, decide_eq_true_eq] at hs
          simp only [decide_eq_true_eq]
          linarith [hwa.2, hs.1]
        have h2 := hdrop a hlast_a
        have h3 : ([a].countP fun s => decide (t' - 60 < s) && decide (s ≤ t')) ≤ 1 := by
          simpa using List.countP_le_length _
        omega
      · have h0 : ([a].countP fun s => decide (t' - 60 < s) && decide (s ≤ t')) = 0 := by
          rw [List.countP_eq_zero]
          intro x hx
          rw [List.mem_singleton.mp hx]
          simp only [Bool.and_eq_true, decide_eq_true_eq, not_and]
          intro h1 h2
          exact hwa ⟨h1, h2⟩
        have := hW t'
        rw [windowCount] at this
        omega
    have hdrop' : ∀ u, a ≤ u →
        (hist ++ [a]).countP (fun s => decide (u - 60 < s)) ≤
          r.times.countP (fun s => decide (u - 60 < s)) := by
      intro u hau
      rw [htimes, List.countP_append, List.countP_append,
        countP_filter_window ts a u hau]
      have := hdrop u (le_trans hlast_a hau)
      omega
    rw [hrun]
    simp only [List.map_cons]
    rw [List.append_cons]
    exact ih r.times (hist ++ [a]) a hcrest hsort' hle'' hlen' hW' hdrop' t

/-- Claim C1: for every sequence of admissions through the GitHub rate
limiter in `make_github_request` (window 60 seconds, budget
`PER_MINUTE_LIMIT`, which is always at least 1), the recorded admission
timestamps are such that no trailing 60-second window ever contains more
than the budget many timestamps; in particular, with budget 2 and window
60, issuing 5 concurrent acquisitions (each entering the lock-serialized
critical section as soon as its predecessor leaves, all initiated at time
0) admits them at times 0, 0, 60, 60, 120, so each of acquisitions 3
through 5 is delayed past its initiation before admission. -/
theorem github_rate_limiter_sliding_window
    (limit : ℕ) (t0 : ℚ) (calls : List (ℚ × ℚ))
    (hl : 1 ≤ limit) (hcalls : ∀ c ∈ calls, 0 ≤ c.1 ∧ 0 ≤ c.2) :
    (∀ t : ℚ, windowCount t (admissions limit t0 calls) ≤ limit) ∧
    (∀ b : Bool, 1 ≤ PER_MINUTE_LIMIT b) ∧
    admissions 2 0 fiveBurstCalls = [0, 0, 60, 60, 120] ∧
    (∀ k ∈ [2, 3, 4], 0 < (admissions 2 0 fiveBurstCalls).getD k 0) := by
  have hconc : admissions 2 0 fiveBurstCalls = [0, 0, 60, 60, 120] := by
    norm_num [admissions, runAcquires, acquireStep, evict, fiveBurstCalls, List.headI]
  refine ⟨?_, by decide, hconc, ?_⟩
  · intro t
    have h := runAcquires_window limit hl calls [] [] t0 hcalls
      (by simp) (by simp) (by simp) (fun t' => by simp [windowCount])
      (fun u _ => le_refl _) t
    simpa [admissions] using h
  · intro k hk
    rw [hconc]
    fin_cases hk <;> norm_num

/-- Closed instance of the C1 theorem at budget 2 with the five-call burst. -/
theorem github_rate_limiter_sliding_window_witness :
    (∀ t : ℚ, windowCount t (admissions 2 0 fiveBurstCalls) ≤ 2) ∧
    admissions 2 0 fiveBurstCalls = [0, 0, 60, 60, 120] := by
  have h := github_rate_limiter_sliding_window 2 0 fiveBurstCalls (by norm_num)
    (by intro c hc
        rw [fiveBurstCalls, List.mem_replicate] at hc
        rw [hc.2]
        exact ⟨le_refl 0, le_refl 0⟩)
  exact ⟨h.1, h.2.2.1⟩

/-! ### Lock discipline (C2) -/

/-- Claim C2 is false on the code: it is not the case that neither limiter
holds its lock while suspended in the wait-for-slot sleep and that every
mutation happens under mutual exclusion — the GitHub limiter in
`make_github_request` sleeps inside `async with rate_limit_lock:`, and the
OpenAI limiter in `rate_limited_openai_chat_completion` mutates its
timestamp deque with no lock at all. -/
theorem limiter_lock_discipline_counterexample :
    ¬ (sleepsWhileHoldingLock make_github_request_limiter = false ∧
        mutatesOutsideLock make_github_request_limiter = false ∧
        sleepsWhileHoldingLock rate_limited_openai_limiter = false ∧
        mutatesOutsideLock rate_limited_openai_limiter = false) := by
  decide

/-- Claim C2 (amended): the GitHub limiter performs every mutation of its
timestamp sequence under `rate_limit_lock`, but holds that lock across the
wait-for-slot sleep; the OpenAI limiter never takes a lock at all — it
does not sleep under a lock, and both of its mutations happen outside
mutual exclusion. -/
theorem limiter_lock_discipline_amended :
    mutatesOutsideLock make_github_request_limiter = false ∧
    sleepsWhileHoldingLock make_github_request_limiter = true ∧
    LimiterAction.lockAcquire ∉ rate_limited_openai_limiter ∧
    sleepsWhileHoldingLock rate_limited_openai_limiter = false ∧
    mutatesOutsideLock rate_limited_openai_limiter = true := by
  decide

/-! ### Merging and the content-fetch stage -/

lemma foldl_entryString (files : List (String × String)) :
    ∀ init : String,
      files.foldl (fun merged_content p => merged_content ++ entryString p) init =
        init ++ merge_file_contents files := by
  induction files with
  | nil => intro init; simp [merge_file_contents]
  | cons p l ih =>
    intro init
    rw [merge_file_contents, List.foldl_cons, ih, List.foldl_cons, ih,
      String.append_assoc]
    simp

lemma merge_file_contents_cons (p : String × String) (l : List (String × String)) :
    merge_file_contents (p :: l) = entryString p ++ merge_file_contents l := by
  rw [merge_file_contents, List.foldl_cons, foldl_entryString]
  simp

lemma merge_file_contents_append (l₁ l₂ : List (String × String)) :
    merge_file_contents (l₁ ++ l₂) =
      merge_file_contents l₁ ++ merge_file_contents l₂ := by
  induction l₁ with
  | nil => simp [merge_file_contents]
  | cons p l ih =>
    rw [List.cons_append, merge_file_contents_cons, merge_file_contents_cons, ih,
      String.append_assoc]

/-- A path appears among the fetched entries exactly when it was in the
completed candidate list and its content fetch succeeded with that
content. -/
lemma mem_fetch_list_text_files (file_content : String → Option String)
    (completed : List String) (p c : String) :
    (p, c) ∈ fetch_list_text_files file_content completed ↔
      p ∈ completed ∧ file_content p = some c := by
  rw [fetch_list_text_files, List.mem_filterMap]
  constructor
  · rintro ⟨q, hq, hmap⟩
    rw [Option.map_eq_some'] at hmap
    obtain ⟨c', hc', heq⟩ := hmap
    obtain ⟨rfl, rfl⟩ : q = p ∧ c' = c := by
      constructor <;> [exact congrArg Prod.fst heq; exact congrArg Prod.snd heq]
    exact ⟨hq, hc'⟩
  · rintro ⟨hp, hc⟩
    exact ⟨p, hp, by rw [hc]; rfl⟩

/-- The paths of the fetched entries are exactly the completed candidates
whose content fetch succeeded, in completion order. -/
lemma map_fst_fetch_list_text_files (file_content : String → Option String)
    (completed : List String) :
    (fetch_list_text_files file_content completed).map Prod.fst =
      completed.filter fun p => (file_content p).isSome := by
  rw [fetch_list_text_files, List.map_filterMap]
  induction completed with
  | nil => rfl
  | cons q l ih =>
    rw [List.filterMap_cons, List.filter_cons]
    cases hq : file_content q with
    | none => simpa [hq] using ih
    | some c => simpa [hq] using ih

/-- When the URL parses and the metadata and tree requests succeed,
`fetch_repo` returns the `Repository` assembled from the tree and the
completed file fetches. -/
lemma fetch_repo_ok (repo_url : String) (u : Upstream)
    (complete : List String → List String) (pr : String × String)
    (info : RepoInfo) (tree : List TreeEntry)
    (hparse : get_repo_info_parse repo_url = some pr)
    (hinfo : u.repo_info = .ok info) (htree : u.repo_tree = .ok tree) :
    fetch_repo repo_url u complete =
      .ok ⟨info.owner_login, info.name, blobPaths tree,
        merge_file_contents (fetch_list_text_files u.file_content
          (complete (textfilePaths tree)))⟩ := by
  simp only [fetch_repo, hparse, hinfo, htree]

/-! ### File listing and text classification (C6) -/

/-- Claim C6: for every tree response, the `Repository` returned by
`fetch_repo` has `file_paths` equal to the blob paths (text and binary
alike) in the order returned by the API — hence of length `N`, the number
of blob entries — and exactly the text-classified paths among them are
submitted to the content-fetch stage. -/
theorem fetch_repo_file_paths
    (repo_url : String) (u : Upstream) (complete : List String → List String)
    (pr : String × String) (info : RepoInfo) (tree : List TreeEntry)
    (hparse : get_repo_info_parse repo_url = some pr)
    (hinfo : u.repo_info = .ok info) (htree : u.repo_tree = .ok tree) :
    ∃ r : Repository, fetch_repo repo_url u complete = .ok r ∧
      r.file_paths = blobPaths tree ∧
      r.file_paths.length = (tree.filter fun item => item.type == "blob").length ∧
      textfilePaths tree = r.file_paths.filter (fun p => pyTruthy (is_text_file p)) ∧
      (∀ p, p ∈ textfilePaths tree ↔ p ∈ r.file_paths ∧ pyTruthy (is_text_file p) = true) := by
  refine ⟨_, fetch_repo_ok repo_url u complete pr info tree hparse hinfo htree,
    rfl, ?_, rfl, ?_⟩
  · rw [blobPaths, List.length_map]
  · intro p
    rw [textfilePaths, List.mem_filter]

/-- Closed instance of the C6 theorem on the mocked upstream: all four
blob paths are listed, in API order, and exactly the two `.txt` files are
content-fetch candidates. -/
theorem fetch_repo_file_paths_witness :
    filePathsOf (fetch_repo sampleUrl sampleUpstream id) =
      some ["file1.txt", "file2.bin", "dir/file3.txt", "LICENSE"] ∧
    textfilePaths sampleTree = ["file1.txt", "dir/file3.txt"] := by
  obtain ⟨r, hr, hfp, -, -, -⟩ := fetch_repo_file_paths sampleUrl sampleUpstream id
    ("owner", "repo") sampleInfo sampleTree (by decide) rfl rfl
  refine ⟨?_, by decide⟩
  rw [hr, filePathsOf, hfp]
  decide

/-! ### Merged-code structure and ordering (C3) -/

/-- Claim C3 is false on the code as stated: the merged entries appear in
task-completion (dict-insertion) order, which the original tree order does
not bind.  Concretely, on the mocked upstream, a run whose two content
fetches complete in reverse submission order produces a `merged_code` that
is not the tree-order merge. -/
theorem merged_code_tree_order_counterexample :
    mergedCodeOf (fetch_repo sampleUrl sampleUpstream List.reverse) =
      some (merge_file_contents (fetch_list_text_files sampleUpstream.file_content
        (List.reverse (textfilePaths sampleTree)))) ∧
    mergedCodeOf (fetch_repo sampleUrl sampleUpstream List.reverse) ≠
      some (merge_file_contents (fetch_list_text_files sampleUpstream.file_content
        (textfilePaths sampleTree))) := by
  exact ⟨by decide, by decide⟩

/-- Claim C3 (amended): for every successful run of `fetch_repo`,
`merged_code` is the concatenation, in task-completion order, of one entry
per text-classified file whose fetch succeeded — each entry consisting of
the delimiter line naming the file's path, the decoded content, and a
terminating newline; each such file contributes exactly one entry (the
entry paths are a permutation of the successful candidates), and the
entries follow the original tree-listing order restricted to successful
text files exactly when the tasks complete in submission order. -/
theorem merged_code_structure_amended
    (repo_url : String) (u : Upstream) (complete : List String → List String)
    (pr : String × String) (info : RepoInfo) (tree : List TreeEntry)
    (hperm : ∀ l : List String, (complete l).Perm l)
    (hparse : get_repo_info_parse repo_url = some pr)
    (hinfo : u.repo_info = .ok info) (htree : u.repo_tree = .ok tree) :
    ∃ r : Repository, fetch_repo repo_url u complete = .ok r ∧
      r.merged_code = merge_file_contents
        (fetch_list_text_files u.file_content (complete (textfilePaths tree))) ∧
      ((fetch_list_text_files u.file_content (complete (textfilePaths tree))).map
          Prod.fst).Perm
        ((textfilePaths tree).filter fun p => (u.file_content p).isSome) ∧
      (∀ p c,
        (p, c) ∈ fetch_list_text_files u.file_content (complete (textfilePaths tree)) ↔
          p ∈ textfilePaths tree ∧ u.file_content p = some c) ∧
      (complete (textfilePaths tree) = textfilePaths tree →
        (fetch_list_text_files u.file_content (complete (textfilePaths tree))).map
            Prod.fst =
          (textfilePaths tree).filter fun p => (u.file_content p).isSome) := by
  refine ⟨_, fetch_repo_ok repo_url u complete pr info tree hparse hinfo htree,
    rfl, ?_, ?_, ?_⟩
  · rw [map_fst_fetch_list_text_files]
    exact (hperm _).filter _
  · intro p c
    rw [mem_fetch_list_text_files]
    exact and_congr_left fun _ => (hperm _).mem_iff
  · intro heq
    rw [heq, map_fst_fetch_list_text_files]

/-- Closed instance of the amended C3 theorem, with tasks completing in
reverse submission order on the mocked upstream. -/
theorem merged_code_structure_amended_witness :
    mergedCodeOf (fetch_repo sampleUrl sampleUpstream List.reverse) =
      some (merge_file_contents (fetch_list_text_files sampleContent
        (List.reverse (textfilePaths sampleTree)))) ∧
    ("file1.txt", "content of file1") ∈
      fetch_list_text_files sampleContent (List.reverse (textfilePaths sampleTree)) := by
  obtain ⟨r, hr, hm, -, hiff, -⟩ := merged_code_structure_amended sampleUrl
    sampleUpstream List.reverse ("owner", "repo") sampleInfo sampleTree
    (fun l => l.reverse_perm) (by decide) rfl rfl
  refine ⟨?_, (hiff "file1.txt" "content of file1").mpr ⟨by decide, rfl⟩⟩
  rw [hr, mergedCodeOf, hm]
  rfl

/-! ### Determinism across runs (C4) -/

/-- Claim C4 is false on the code as stated: two runs of `fetch_repo`
against the same unchanged mocked upstream whose concurrent content
fetches complete in different orders produce different `merged_code`. -/
theorem fetch_repo_idempotence_counterexample :
    mergedCodeOf (fetch_repo sampleUrl sampleUpstream id) ≠
      mergedCodeOf (fetch_repo sampleUrl sampleUpstream List.reverse) := by
  decide

/-- Claim C4 (amended): two runs of `fetch_repo` against the same
unchanged upstream agree on owner, name and `file_paths`, and their merged
entry lists are permutations of each other; the `merged_code` strings are
byte-identical whenever the two runs' content fetches complete in the same
order (completion order is the only source of divergence). -/
theorem fetch_repo_deterministic_amended
    (repo_url : String) (u : Upstream)
    (complete₁ complete₂ : List String → List String)
    (pr : String × String) (info : RepoInfo) (tree : List TreeEntry)
    (hperm₁ : ∀ l : List String, (complete₁ l).Perm l)
    (hperm₂ : ∀ l : List String, (complete₂ l).Perm l)
    (hparse : get_repo_info_parse repo_url = some pr)
    (hinfo : u.repo_info = .ok info) (htree : u.repo_tree = .ok tree) :
    ∃ r₁ r₂ : Repository,
      fetch_repo repo_url u complete₁ = .ok r₁ ∧
      fetch_repo repo_url u complete₂ = .ok r₂ ∧
      r₁.owner = r₂.owner ∧ r₁.repo_name = r₂.repo_name ∧
      r₁.file_paths = r₂.file_paths ∧
      (fetch_list_text_files u.file_content (complete₁ (textfilePaths tree))).Perm
        (fetch_list_text_files u.file_content (complete₂ (textfilePaths tree))) ∧
      (complete₁ (textfilePaths tree) = complete₂ (textfilePaths tree) → r₁ = r₂) := by
  refine ⟨_, _,
    fetch_repo_ok repo_url u complete₁ pr info tree hparse hinfo htree,
    fetch_repo_ok repo_url u complete₂ pr info tree hparse hinfo htree,
    rfl, rfl, rfl, ?_, ?_⟩
  · exact List.Perm.filterMap _ ((hperm₁ _).trans (hperm₂ _).symm)
  · intro heq
    rw [heq]

/-- Closed instance of the amended C4 theorem: two identically scheduled
runs have equal outcomes; the entry lists of differently scheduled runs
are permutations of each other. -/
theorem fetch_repo_deterministic_amended_witness :
    fetch_repo sampleUrl sampleUpstream id = fetch_repo sampleUrl sampleUpstream id ∧
    (fetch_list_text_files sampleContent (id (textfilePaths sampleTree))).Perm
      (fetch_list_text_files sampleContent (List.reverse (textfilePaths sampleTree))) := by
  obtain ⟨r₁, r₂, h₁, h₂, -, -, -, hpm, heq⟩ := fetch_repo_deterministic_amended
    sampleUrl sampleUpstream id List.reverse ("owner", "repo") sampleInfo sampleTree
    (fun l => List.Perm.refl l) (fun l => l.reverse_perm) (by decide) rfl rfl
  exact ⟨rfl, hpm⟩

/-! ### Partial-failure isolation (C5) -/

/-- Claim C5: if the content fetch or decode of one candidate file fails,
`fetch_repo` still returns successfully; the failed file's path does not
appear among the merged entries, while every other candidate whose fetch
succeeded contributes its entry to `merged_code`. -/
theorem fetch_repo_partial_failure
    (repo_url : String) (u : Upstream) (complete : List String → List String)
    (pr : String × String) (info : RepoInfo) (tree : List TreeEntry) (p : String)
    (hperm : ∀ l : List String, (complete l).Perm l)
    (hparse : get_repo_info_parse repo_url = some pr)
    (hinfo : u.repo_info = .ok info) (htree : u.repo_tree = .ok tree)
    (_hcand : p ∈ textfilePaths tree) (hfail : u.file_content p = none) :
    ∃ r : Repository, fetch_repo repo_url u complete = .ok r ∧
      p ∉ (fetch_list_text_files u.file_content
        (complete (textfilePaths tree))).map Prod.fst ∧
      (∀ q c, q ∈ textfilePaths tree → u.file_content q = some c →
        ∃ pre post, r.merged_code = pre ++ entryString (q, c) ++ post) := by
  refine ⟨_, fetch_repo_ok repo_url u complete pr info tree hparse hinfo htree,
    ?_, ?_⟩
  · rw [map_fst_fetch_list_text_files, List.mem_filter]
    rintro ⟨-, hsome⟩
    rw [hfail] at hsome
    exact absurd hsome (by simp)
  · intro q c hq hc
    have hmem : (q, c) ∈ fetch_list_text_files u.file_content
        (complete (textfilePaths tree)) :=
      (mem_fetch_list_text_files _ _ _ _).mpr ⟨(hperm _).mem_iff.mpr hq, hc⟩
    obtain ⟨s, t, hst⟩ := List.append_of_mem hmem
    refine ⟨merge_file_contents s, merge_file_contents t, ?_⟩
    show merge_file_contents _ = _
    rw [hst, merge_file_contents_append, merge_file_contents_cons,
      ← String.append_assoc]

/-- Closed instance of the C5 theorem: with `dir/file3.txt` failing, the
fetch still succeeds, omits that file, and keeps `file1.txt`'s entry. -/
theorem fetch_repo_partial_failure_witness :
    (fetch_repo sampleUrl failingUpstream id).isOk = true ∧
    "dir/file3.txt" ∉ (fetch_list_text_files failingUpstream.file_content
      (id (textfilePaths sampleTree))).map Prod.fst ∧
    mergedCodeOf (fetch_repo sampleUrl failingUpstream id) =
      some ("" ++ entryString ("file1.txt", "content of file1") ++ "") := by
  obtain ⟨r, hr, hnot, hkeep⟩ := fetch_repo_partial_failure sampleUrl failingUpstream
    id ("owner", "repo") sampleInfo sampleTree "dir/file3.txt"
    (fun l => List.Perm.refl l) (by decide) rfl rfl (by decide) rfl
  obtain ⟨pre, post, hsplit⟩ := hkeep "file1.txt" "content of file1" (by decide) rfl
  exact ⟨by rw [hr]; rfl, hnot, by decide⟩

/-! ### URL validation (C7) -/

/-- Claim C7 is false on the code as stated: `get_repo_info` counts empty
path segments too.  The URL `https://github.com///a` has only one
non-empty path segment after the host, yet the parse succeeds (with an
empty owner), so `fetch_repo` does not fail with the invalid-reference
`ValueError`. -/
theorem get_repo_info_invalid_url_counterexample :
    (nonEmptyPathSegmentsAfterHost "https://github.com///a").length < 2 ∧
    get_repo_info_parse "https://github.com///a" = some ("", "a") ∧
    isInvalidUrl (fetch_repo "https://github.com///a" sampleUpstream id) = false := by
  exact ⟨by decide, by decide, by decide⟩

/-- Claim C7 (amended): `fetch_repo` fails with the invalid-reference
`ValueError` raised by `get_repo_info`, rather than returning a
`Repository`, exactly for those URLs whose processed location — every
occurrence of the literal `https://github.com/` removed, trailing slashes
stripped — splits on `/` into fewer than two segments, where segments may
be empty (so a URL with fewer than two non-empty segments can still
parse). -/
theorem get_repo_info_invalid_url_amended
    (repo_url : String) (u : Upstream) (complete : List String → List String)
    (h : (pySplit (rstripSlash (pyReplace repo_url githubPrefix "")) "/").length < 2) :
    get_repo_info_parse repo_url = none ∧
    fetch_repo repo_url u complete = .error .invalidUrl := by
  have hp : get_repo_info_parse repo_url = none := by
    rw [get_repo_info_parse]
    exact if_neg (by omega)
  exact ⟨hp, by rw [fetch_repo, hp]⟩

/-- Closed instance of the amended C7 theorem at the one-segment URL
`https://github.com/owner`. -/
theorem get_repo_info_invalid_url_amended_witness :
    get_repo_info_parse "https://github.com/owner" = none ∧
    fetch_repo "https://github.com/owner" sampleUpstream id = .error .invalidUrl := by
  exact get_repo_info_invalid_url_amended "https://github.com/owner" sampleUpstream id
    (by decide)

/-! ### Extensionless paths are non-text (C10) -/

/-- Claim C10: a path for which the MIME classifier yields no MIME type
makes `is_text_file` return the falsy `None` (not the boolean `False`), so
the path is classified non-text: it is not a content-fetch candidate and
contributes no merged entry, yet it still appears in `file_paths` whenever
it is a blob. -/
theorem extensionless_paths_are_skipped
    (file_path repo_url : String) (u : Upstream)
    (complete : List String → List String)
    (pr : String × String) (info : RepoInfo) (tree : List TreeEntry)
    (hperm : ∀ l : List String, (complete l).Perm l)
    (hmime : guess_type file_path = none)
    (hparse : get_repo_info_parse repo_url = some pr)
    (hinfo : u.repo_info = .ok info) (htree : u.repo_tree = .ok tree)
    (hblob : file_path ∈ blobPaths tree) :
    is_text_file file_path = none ∧
    is_text_file file_path ≠ some false ∧
    pyTruthy (is_text_file file_path) = false ∧
    file_path ∉ textfilePaths tree ∧
    ∃ r : Repository, fetch_repo repo_url u complete = .ok r ∧
      r.file_paths = blobPaths tree ∧ file_path ∈ r.file_paths ∧
      file_path ∉ (fetch_list_text_files u.file_content
        (complete (textfilePaths tree))).map Prod.fst := by
  have hnone : is_text_file file_path = none := by
    rw [is_text_file, hmime]
  have hfalsy : pyTruthy (is_text_file file_path) = false := by
    rw [hnone]
    rfl
  have hnotext : file_path ∉ textfilePaths tree := by
    rw [textfilePaths, List.mem_filter]
    rintro ⟨-, htruthy⟩
    rw [hfalsy] at htruthy
    exact absurd htruthy (by simp)
  refine ⟨hnone, by rw [hnone]; simp, hfalsy, hnotext,
    _, fetch_repo_ok repo_url u complete pr info tree hparse hinfo htree,
    rfl, hblob, ?_⟩
  rw [map_fst_fetch_list_text_files, List.mem_filter]
  rintro ⟨hmem, -⟩
  exact hnotext ((hperm _).mem_iff.mp hmem)

/-- Closed instance of the C10 theorem at the extensionless blob path
`LICENSE` of the mocked tree. -/
theorem extensionless_paths_are_skipped_witness :
    is_text_file "LICENSE" = none ∧
    "LICENSE" ∉ textfilePaths sampleTree ∧
    filePathsOf (fetch_repo sampleUrl sampleUpstream id) =
      some ["file1.txt", "file2.bin", "dir/file3.txt", "LICENSE"] := by
  obtain ⟨hnone, -, -, hnotext, r, hr, hfp, -, -⟩ := extensionless_paths_are_skipped
    "LICENSE" sampleUrl sampleUpstream id ("owner", "repo") sampleInfo sampleTree
    (fun l => List.Perm.refl l) (by decide) (by decide) rfl rfl (by decide)
  refine ⟨hnone, hnotext, ?_⟩
  rw [hr, filePathsOf, hfp]
  decide

/-! ### The three context-chained generation calls (C8, C9) -/

/-- Claim C8: when the first two generation calls succeed,
`get_code_review` issues exactly three generation calls, in strict
sequential order; the message list of call 2 is the system prompt followed
by the merged code and then call 1's returned text verbatim as an
assistant message, and the message list of call 3 additionally carries
call 2's returned text verbatim as a second assistant message. -/
theorem get_code_review_three_sequential_calls
    (gen : List Msg → Except String String)
    (code assignment reviewed_level d r : String)
    (h1 : gen (reviewMessages1 code assignment reviewed_level) = .ok d)
    (h2 : gen (reviewMessages2 code assignment reviewed_level d) = .ok r) :
    (get_code_review gen code assignment reviewed_level).2 =
      [reviewMessages1 code assignment reviewed_level,
        reviewMessages2 code assignment reviewed_level d,
        reviewMessages3 code assignment reviewed_level d r] ∧
    (reviewMessages2 code assignment reviewed_level d).drop 1 =
      [⟨"user", code⟩, ⟨"assistant", d⟩] ∧
    (reviewMessages3 code assignment reviewed_level d r).drop 1 =
      [⟨"user", code⟩, ⟨"assistant", d⟩, ⟨"assistant", r⟩] := by
  refine ⟨?_, rfl, rfl⟩
  simp only [get_code_review, h1, h2]
  cases h3 : gen (reviewMessages3 code assignment reviewed_level d r) <;> rfl

/-- Closed instance of the C8 theorem with an oracle that always answers
`R`. -/
theorem get_code_review_three_sequential_calls_witness :
    (get_code_review (constGen "R") "code" "assignment" "Junior").2 =
      [reviewMessages1 "code" "assignment" "Junior",
        reviewMessages2 "code" "assignment" "Junior" "R",
        reviewMessages3 "code" "assignment" "Junior" "R" "R"] := by
  exact (get_code_review_three_sequential_calls (constGen "R")
    "code" "assignment" "Junior" "R" "R" rfl rfl).1

/-- Claim C9: if any of the three generation passes raises, the raised
exception propagates out of `get_code_review` and no later pass is ever
issued; and every returned `Review` has its three fields populated from
the three respective calls — there is no partial result. -/
theorem get_code_review_all_or_nothing
    (gen : List Msg → Except String String)
    (code assignment reviewed_level : String) :
    (∀ e, gen (reviewMessages1 code assignment reviewed_level) = .error e →
      get_code_review gen code assignment reviewed_level =
        (.error e, [reviewMessages1 code assignment reviewed_level])) ∧
    (∀ d e, gen (reviewMessages1 code assignment reviewed_level) = .ok d →
      gen (reviewMessages2 code assignment reviewed_level d) = .error e →
      get_code_review gen code assignment reviewed_level =
        (.error e, [reviewMessages1 code assignment reviewed_level,
          reviewMessages2 code assignment reviewed_level d])) ∧
    (∀ d r e, gen (reviewMessages1 code assignment reviewed_level) = .ok d →
      gen (reviewMessages2 code assignment reviewed_level d) = .ok r →
      gen (reviewMessages3 code assignment reviewed_level d r) = .error e →
      get_code_review gen code assignment reviewed_level =
        (.error e, [reviewMessages1 code assignment reviewed_level,
          reviewMessages2 code assignment reviewed_level d,
          reviewMessages3 code assignment reviewed_level d r])) ∧
    (∀ rev, (get_code_review gen code assignment reviewed_level).1 = .ok rev →
      gen (reviewMessages1 code assignment reviewed_level) =
        .ok rev.downsides_comments ∧
      gen (reviewMessages2 code assignment reviewed_level rev.downsides_comments) =
        .ok rev.rating ∧
      gen (reviewMessages3 code assignment reviewed_level rev.downsides_comments
        rev.rating) = .ok rev.conclusion) := by
  refine ⟨?_, ?_, ?_, ?_⟩
  · intro e he
    simp only [get_code_review, he]
  · intro d e h1 h2
    simp only [get_code_review, h1, h2]
  · intro d r e h1 h2 h3
    simp only [get_code_review, h1, h2, h3]
  · intro rev hrev
    rw [get_code_review] at hrev
    cases h1 : gen (reviewMessages1 code assignment reviewed_level) with
    | error e => simp only [h1] at hrev; exact absurd hrev (by simp)
    | ok d =>
      simp only [h1] at hrev
      cases h2 : gen (reviewMessages2 code assignment reviewed_level d) with
      | error e => simp only [h2] at hrev; exact absurd hrev (by simp)
      | ok r =>
        simp only [h2] at hrev
        cases h3 : gen (reviewMessages3 code assignment reviewed_level d r) with
        | error e => simp only [h3] at hrev; exact absurd hrev (by simp)
        | ok c =>
          simp only [h3] at hrev
          obtain rfl : (⟨d, r, c⟩ : Review) = rev := by
            injection hrev
          exact ⟨rfl, h2, h3⟩

/-- Closed instance of the C9 theorem with an oracle that always fails:
the failure propagates and only the first call is ever issued. -/
theorem get_code_review_all_or_nothing_witness :
    get_code_review (failGen "boom") "code" "assignment" "Junior" =
      (.error "boom", [reviewMessages1 "code" "assignment" "Junior"]) := by
  exact (get_code_review_all_or_nothing (failGen "boom")
    "code" "assignment" "Junior").1 "boom" rfl

end CodeReviewAI
